import Mathlib

/-!
Verification of the FITS-embedding adapter of the pyasdf block-addressing
subsystem (`pyasdf/fits_embed.py`), against the system specification.

The data model embeds the Python code shallowly: Python object identity
(the `is` operator) is modelled by explicit numeric identities (`oid` for
HDU and block objects, `id` for raw data buffers); exceptions are modelled
with `Except` over the spec's error taxonomy; astropy's HDU-list name and
name-plus-version lookup is modelled as first-match search per the spec's
host-container interface.  The base `block.BlockManager` and the base-format
serializer are not part of the examined sources and are modelled from the
spec where noted.
-/

set_option linter.unusedVariables false

namespace Pyasdf

/-- A raw data buffer (a numpy array's underlying storage).  `id` models
Python object identity of the buffer, used by the code's `is` comparisons. -/
structure Buffer where
  id : Nat
  bytes : List Nat
deriving DecidableEq

/-- A host-container section (a FITS HDU): a name, a version (`ver`), and a
data buffer.  `oid` models Python object identity of the HDU object. -/
structure HDU where
  oid : Nat
  name : String
  ver : Nat
  data : Buffer
deriving DecidableEq

/-- An internal block of the base format.  `oid` models Python object
identity of the block object. -/
structure Block where
  oid : Nat
  bytes : List Nat
deriving DecidableEq

/-- `_FitsBlock`: a read-only block view wrapping a host-container HDU.
`oid` models Python object identity of the wrapper object; `get_block`
allocates a new wrapper on every call. -/
structure FitsBlock where
  oid : Nat
  hdu : HDU
deriving DecidableEq

/-- The `data` property of `_FitsBlock`: the wrapped HDU's buffer. -/
def FitsBlock.data (b : FitsBlock) : Buffer := b.hdu.data

/-- The `array_storage` property of `_FitsBlock`. -/
def FitsBlock.array_storage (b : FitsBlock) : String := "fits"

/-- A block as seen through the embedded manager: either a FITS wrapper or
an internal block of the base manager. -/
inductive ABlock where
  | fits (b : FitsBlock)
  | internal (b : Block)
deriving DecidableEq

/-- A source identifier: a non-negative integer position or a string. -/
inductive Source where
  | int (n : Nat)
  | str (s : String)
deriving DecidableEq

/-- The spec's error taxonomy (§7).  The code's concrete exception classes
map onto it: out-of-range or unresolvable sources (including astropy's
KeyError on a missing section) are AddressError; the adapter's
"FITS block seems to have been removed" ValueError is ResourceRemovedError;
`write_to_stream`'s NotImplementedError is UnsupportedOperationError. -/
inductive AsdfError where
  | addressError
  | resourceRemovedError
  | unsupportedOperationError
deriving DecidableEq

/-- An array-like value as the block manager sees it: whether it is a
lazily block-backed `NDArrayType`, and the identity of its underlying base
buffer as computed by `util.get_array_base` (spec §4.1: views over the same
storage share one base). -/
structure ArrayView where
  isNDArrayType : Bool
  base : Buffer
deriving DecidableEq

/-- Value of a decimal digit character sequence, as Python's `int()`. -/
def digitsToNat (cs : List Char) : Nat :=
  cs.foldl (fun a c => 10 * a + (c.toNat - 48)) 0

/-- Integer parse of a whole string: every character a decimal digit and at
least one of them. -/
def parseNat (cs : List Char) : Option Nat :=
  if cs ≠ [] ∧ ∀ c ∈ cs, c.isDigit then some (digitsToNat cs) else none

/-- Modelled from the spec: the base `block.BlockManager` (§4.2, §4.3),
whose source is not among the examined files.  It owns the ordered internal
block sequence and the write-time buffer-identity bindings. -/
structure BlockManager where
  internalBlocks : List Block
  bindings : List (Nat × Block)
deriving DecidableEq

/-- Modelled from the spec (§4.2 resolve): an integer source indexes the
ordered internal block sequence, bounds-checked, failing with AddressError
when out of range; a string source that no scheme handler recognised falls
back to integer parsing and fails if it is not a valid index. -/
def BlockManager.get_block (m : BlockManager) (source : Source) : Except AsdfError Block :=
  match source with
  | .int n =>
    if h : n < m.internalBlocks.length then .ok (m.internalBlocks.get ⟨n, h⟩)
    else .error .addressError
  | .str s =>
    match parseNat s.data with
    | some n =>
      if h : n < m.internalBlocks.length then .ok (m.internalBlocks.get ⟨n, h⟩)
      else .error .addressError
    | none => .error .addressError

/-- Modelled from the spec (§4.2 identify): the canonical identifier of an
internally stored block is its position; AddressError when the block is not
a member of the registry. -/
def BlockManager.get_source (m : BlockManager) (blk : Block) : Except AsdfError Source :=
  match m.internalBlocks.findIdx? (fun b => b.oid == blk.oid) with
  | some i => .ok (.int i)
  | none => .error .addressError

/-- Modelled from the spec (§4.3 find_or_create_for_array): dedup by buffer
identity — return the block already bound to the array's base buffer, else
create a new internal block (with the allocator-supplied fresh object
identity) and register it. -/
def BlockManager.find_or_create_block_for_array (m : BlockManager) (fresh : Nat)
    (arr : ArrayView) : Block × BlockManager :=
  match m.bindings.find? (fun p => p.1 == arr.base.id) with
  | some p => (p.2, m)
  | none =>
    let nb : Block := ⟨fresh, arr.base.bytes⟩
    (nb, ⟨m.internalBlocks ++ [nb], m.bindings ++ [(arr.base.id, nb)]⟩)

/-- Decimal digit character, as produced by Python string formatting. -/
def digitChar (d : Nat) : Char :=
  match d with
  | 0 => '0' | 1 => '1' | 2 => '2' | 3 => '3' | 4 => '4'
  | 5 => '5' | 6 => '6' | 7 => '7' | 8 => '8' | _ => '9'

/-- Fuel-driven decimal rendering loop (most significant digit first). -/
def natReprGo : Nat → Nat → List Char → List Char
  | 0, _, acc => acc
  | fuel + 1, n, acc =>
    if n < 10 then digitChar n :: acc
    else natReprGo fuel (n / 10) (digitChar (n % 10) :: acc)

/-- Decimal rendering of a natural number, modelling Python `str(int)` as
used by `'fits:{0},{1}'.format(hdu.name, hdu.ver)`. -/
def natRepr (n : Nat) : String := ⟨natReprGo (n + 1) n []⟩

/-- The character class `[A-Z0-9]` of the adapter's source-name grammar. -/
def isNameChar (c : Char) : Bool := ('A' ≤ c && c ≤ 'Z') || c.isDigit

/-- Models `source.startswith('fits:')` together with `source[5:]`. -/
def dropPrefixFits (s : String) : Option (List Char) :=
  if s.data.take 5 = ['f', 'i', 't', 's', ':'] then some (s.data.drop 5) else none

/-- Models `re.match('(?P<name>[A-Z0-9]+)(,(?P<ver>[0-9]+))?', rest)`:
a prefix match (not anchored at the end), with a greedy maximal `[A-Z0-9]+`
name; the optional `,[0-9]+` group matches a comma followed by a maximal
nonempty digit run; any remaining characters are ignored, exactly as
`re.match` ignores them.  `none` models a failed match. -/
def parseFitsPair (rest : List Char) : Option (String × Option Nat) :=
  let nm := rest.takeWhile isNameChar
  if nm = [] then none
  else
    let after := rest.dropWhile isNameChar
    match after with
    | ',' :: more =>
      let ds := more.takeWhile Char.isDigit
      if ds = [] then some (⟨nm⟩, none)
      else some (⟨nm⟩, some (digitsToNat ds))
    | _ => some (⟨nm⟩, none)

/-- Host-container lookup `hdulist[name]` / `hdulist[(name, ver)]`: the
first section matching the name (and the version when one is given),
per the spec's host-container interface (§4.5, §6); `none` models the
KeyError astropy raises on a miss. -/
def hduLookup (l : List HDU) (name : String) (over : Option Nat) : Option HDU :=
  match over with
  | none => l.find? (fun h => h.name == name)
  | some v => l.find? (fun h => h.name == name && h.ver == v)

/-- `_EmbeddedBlockManager`: the base manager plus the host HDU list. -/
structure EmbeddedBlockManager where
  hdulist : List HDU
  base : BlockManager
deriving DecidableEq

/-- `_EmbeddedBlockManager.get_block`: a string source starting with
`fits:` whose remainder prefix-matches the scheme grammar resolves in the
host HDU list (a missing section is astropy's KeyError, AddressError in the
spec taxonomy) and wraps the found HDU in a freshly allocated `_FitsBlock`
(`fresh` is the allocator-supplied object identity of the new wrapper);
every other source is delegated to the base manager. -/
def EmbeddedBlockManager.get_block (m : EmbeddedBlockManager) (fresh : Nat)
    (source : Source) : Except AsdfError ABlock :=
  match source with
  | .str s =>
    match dropPrefixFits s with
    | some rest =>
      match parseFitsPair rest with
      | some (name, over) =>
        match hduLookup m.hdulist name over with
        | some hdu => .ok (.fits ⟨fresh, hdu⟩)
        | none => .error .addressError
      | none => (BlockManager.get_block m.base source).map ABlock.internal
    | none => (BlockManager.get_block m.base source).map ABlock.internal
  | .int _ => (BlockManager.get_block m.base source).map ABlock.internal

/-- `_EmbeddedBlockManager.get_source`: for a FITS wrapper, scan the host
HDU list for the HDU that is (object identity) the wrapped one and return
its scheme string `fits:NAME,VER`; raise the removal error when it is gone;
delegate every other block to the base manager. -/
def EmbeddedBlockManager.get_source (m : EmbeddedBlockManager) (b : ABlock) :
    Except AsdfError Source :=
  match b with
  | .fits fb =>
    match m.hdulist.find? (fun h => h.oid == fb.hdu.oid) with
    | some h => .ok (.str ("fits:" ++ h.name ++ "," ++ natRepr h.ver))
    | none => .error .resourceRemovedError
  | .internal blk => BlockManager.get_source m.base blk

/-- `_EmbeddedBlockManager.find_or_create_block_for_array`: for an array
that is not an `NDArrayType`, scan the host HDU list for the HDU whose data
buffer is (object identity) the array's base and wrap it instead of
creating an internal block; otherwise delegate to the base manager. -/
def EmbeddedBlockManager.find_or_create_block_for_array (m : EmbeddedBlockManager)
    (fresh : Nat) (arr : ArrayView) : ABlock × BlockManager :=
  if arr.isNDArrayType = false then
    match m.hdulist.find? (fun hdu => hdu.data.id == arr.base.id) with
    | some hdu => (.fits ⟨fresh, hdu⟩, m.base)
    | none =>
      let r := BlockManager.find_or_create_block_for_array m.base fresh arr
      (.internal r.1, r.2)
  else
    let r := BlockManager.find_or_create_block_for_array m.base fresh arr
    (.internal r.1, r.2)

/-- The designated host section name for the embedded payload. -/
def ASDF_EXTENSION_NAME : String := "ASDF"

/-- Modelled from the spec (§4.4, §6): the base-format byte-stream the base
`write_to` produces in the staging buffer — the emitted tree representation
followed by the internal block records in registry order, each record a
length followed by its payload bytes (flags, checksum and padding elided:
no examined claim depends on them).  Only internal blocks are emitted;
externally hosted blocks contribute nothing to the stream. -/
def serializePayload (tree : List Nat) (blocks : List Block) : List Nat :=
  tree.length :: tree ++ blocks.foldr (fun b acc => (b.bytes.length :: b.bytes) ++ acc) []

/-- Modelled from the spec: decoding of the internal block records. -/
def decodeBlocks : List Nat → List Block
  | [] => []
  | n :: rest => ⟨0, rest.take n⟩ :: decodeBlocks (rest.drop n)
termination_by l => l.length
decreasing_by
  simp only [List.length_drop, List.length_cons]
  omega

/-- Modelled from the spec: decoding of the base-format byte-stream back
into a tree representation and the internal blocks. -/
def decodePayload (bytes : List Nat) : List Nat × List Block :=
  match bytes with
  | [] => ([], [])
  | n :: rest => (rest.take n, decodeBlocks (rest.drop n))

/-- `AsdfInFits`: the embedded document — the host HDU list it is bound to,
the tree (its emitted representation: tree parsing is a collaborator
outside the core, spec §1/§6), and the base block manager state. -/
structure AsdfInFits where
  hdulist : List HDU
  tree : List Nat
  blocks : BlockManager
deriving DecidableEq

/-- Modelled from the spec: the `AsdfInFits` constructor — `AsdfFile` with
`tree=None` holds an empty tree (asdf.py is not among the examined files),
and the embedded block manager is bound to the given HDU list. -/
def AsdfInFits.init (hdulist : List HDU) : AsdfInFits := ⟨hdulist, [], ⟨[], []⟩⟩

/-- Modelled from the spec: `AsdfFile._read_impl` — decode the base-format
byte-stream of the payload into the document bound to the HDU list. -/
def AsdfInFits.readImpl (hdulist : List HDU) (bytes : List Nat) : AsdfInFits :=
  let p := decodePayload bytes
  ⟨hdulist, p.1, ⟨p.2, []⟩⟩

/-- `AsdfInFits.read`: look up the designated `ASDF` section; when the
lookup raises (KeyError, IndexError, AttributeError — modelled by `none`)
return a fresh empty document bound to the HDU list; otherwise decode the
section's payload. -/
def AsdfInFits.read (hdulist : List HDU) : AsdfInFits :=
  match hduLookup hdulist ASDF_EXTENSION_NAME none with
  | none => AsdfInFits.init hdulist
  | some hdu => AsdfInFits.readImpl hdulist hdu.data.bytes

/-- Replace the data buffer of the first `ASDF`-named HDU, modelling
`hdulist[ASDF_EXTENSION_NAME].data = array`. -/
def setAsdfData : List HDU → Buffer → List HDU
  | [], _ => []
  | h :: t, buf =>
    if h.name == ASDF_EXTENSION_NAME then { h with data := buf } :: t
    else h :: setAsdfData t buf

/-- The HDU-list effect of `_update_asdf_extension` once the payload bytes
exist: append a new `ASDF` image HDU (astropy's default version 1; `freshOid`
and `freshBuf` are the allocator-supplied identities of the new objects)
when none is present, else replace the present one's data. -/
def updateAsdfExtensionHdulist (l : List HDU) (payload : List Nat)
    (freshOid freshBuf : Nat) : List HDU :=
  match l.find? (fun h => h.name == ASDF_EXTENSION_NAME) with
  | none => l ++ [⟨freshOid, ASDF_EXTENSION_NAME, 1, ⟨freshBuf, payload⟩⟩]
  | some _ => setAsdfData l ⟨freshBuf, payload⟩

/-- `_update_asdf_extension` with the serialization staged first: the base
`write_to` fills an in-memory buffer (`serResult`; an error there aborts
before the HDU list is touched), and only then is the host section
appended or its data replaced. -/
def updateAsdfExtensionStaged (l : List HDU) (serResult : Except AsdfError (List Nat))
    (freshOid freshBuf : Nat) : Except AsdfError Unit × List HDU :=
  match serResult with
  | .error e => (.error e, l)
  | .ok payload => (.ok (), updateAsdfExtensionHdulist l payload freshOid freshBuf)

/-- `_update_asdf_extension` on the document, in the success case: the
payload is the serialized base-format byte-stream of the document's tree
and internal blocks. -/
def AsdfInFits.updateAsdfExtension (self : AsdfInFits) (freshOid freshBuf : Nat) :
    AsdfInFits :=
  { self with
    hdulist := (updateAsdfExtensionStaged self.hdulist
      (.ok (serializePayload self.tree self.blocks.internalBlocks))
      freshOid freshBuf).2 }

/-- `AsdfInFits.update`: update in place = refresh the `ASDF` extension. -/
def AsdfInFits.update (self : AsdfInFits) (freshOid freshBuf : Nat) : AsdfInFits :=
  self.updateAsdfExtension freshOid freshBuf

/-- `AsdfInFits.write_to`: refresh the `ASDF` extension, then hand the HDU
list to astropy's `writeto` (host-container I/O outside this subsystem). -/
def AsdfInFits.write_to (self : AsdfInFits) (freshOid freshBuf : Nat) : AsdfInFits :=
  self.updateAsdfExtension freshOid freshBuf

/-- `AsdfInFits.write_to_stream`: unconditionally raises
NotImplementedError before anything is written. -/
def AsdfInFits.write_to_stream (self : AsdfInFits) (data : List Nat) :
    Except AsdfError (AsdfInFits × List Nat) :=
  .error .unsupportedOperationError

/-- The characters a well-formed grammar source appends after the name:
nothing, or a comma and the decimal version. -/
def verData (over : Option Nat) : List Char :=
  match over with
  | none => []
  | some v => ',' :: (natRepr v).data

/-- The exact scheme source string `fits:NAME[,VERSION]` of the grammar. -/
def mkFitsSourceStr (name : String) (over : Option Nat) : String :=
  "fits:" ++ name ++ (match over with | none => "" | some v => "," ++ natRepr v)

/-- The scheme source `fits:NAME[,VERSION]` as a source identifier. -/
def mkFitsSource (name : String) (over : Option Nat) : Source :=
  .str (mkFitsSourceStr name over)

/-- A concrete host section named SCI, version 1. -/
def sciHdu : HDU := ⟨10, "SCI", 1, ⟨100, [1, 2, 3]⟩⟩

/-- A concrete host section holding an embedded ASDF payload. -/
def asdfHdu : HDU := ⟨20, "ASDF", 1, ⟨200, [7]⟩⟩

/-- A concrete embedded manager over a host with the single SCI section. -/
def mgr0 : EmbeddedBlockManager := ⟨[sciHdu], ⟨[], []⟩⟩

/-- A concrete embedded manager whose registry holds two internal blocks. -/
def mgr2 : EmbeddedBlockManager := ⟨[sciHdu], ⟨[⟨1, [0]⟩, ⟨2, [0]⟩], []⟩⟩

/-- A concrete live FITS-wrapper block over the SCI section. -/
def blk0 : FitsBlock := ⟨0, sciHdu⟩

/-- A concrete embedded document bound to a host with SCI and ASDF sections. -/
def doc0 : AsdfInFits := ⟨[sciHdu, asdfHdu], [5], ⟨[⟨3, [8]⟩], []⟩⟩

/-! Helper lemmas about the decimal rendering and the grammar scanner. -/

theorem data_append (a b : String) : (a ++ b).data = a.data ++ b.data := rfl

theorem digitChar_toNat (d : Nat) (h : d < 10) : (digitChar d).toNat = 48 + d := by
  interval_cases d <;> rfl

theorem digitChar_isDigit (d : Nat) (h : d < 10) : (digitChar d).isDigit = true := by
  interval_cases d <;> rfl

theorem natReprGo_append (f : Nat) : ∀ n acc, natReprGo f n acc = natReprGo f n [] ++ acc := by
  induction f with
  | zero => intro n acc; simp [natReprGo]
  | succ f ih =>
    intro n acc
    by_cases h : n < 10
    · simp [natReprGo, h]
    · simp only [natReprGo, h, if_false]
      rw [ih (n / 10) (digitChar (n % 10) :: acc), ih (n / 10) [digitChar (n % 10)]]
      simp

theorem natReprGo_fuel (n : Nat) : ∀ f₁ f₂ acc, n < f₁ → n < f₂ →
    natReprGo f₁ n acc = natReprGo f₂ n acc := by
  induction n using Nat.strong_induction_on with
  | _ n ih =>
    intro f₁ f₂ acc h₁ h₂
    match f₁, f₂ with
    | g₁ + 1, g₂ + 1 =>
      by_cases h : n < 10
      · simp [natReprGo, h]
      · simp only [natReprGo, h, if_false]
        have hd : n / 10 < n := Nat.div_lt_self (by omega) (by omega)
        exact ih (n / 10) hd g₁ g₂ _ (by omega) (by omega)

theorem natRepr_data (n : Nat) : (natRepr n).data = natReprGo (n + 1) n [] := rfl

theorem natRepr_unfold (n : Nat) : ¬ n < 10 →
    (natRepr n).data = (natRepr (n / 10)).data ++ [digitChar (n % 10)] := by
  intro h
  have hd : n / 10 < n := Nat.div_lt_self (by omega) (by omega)
  rw [natRepr_data, natRepr_data]
  simp only [natReprGo, h, if_false]
  rw [natReprGo_fuel (n / 10) n (n / 10 + 1) _ (by omega) (by omega)]
  exact natReprGo_append _ _ _

theorem natRepr_foldl (n : Nat) : ∀ a : Nat,
    (natRepr n).data.foldl (fun x c => 10 * x + (c.toNat - 48)) a =
      a * 10 ^ (natRepr n).data.length + n := by
  induction n using Nat.strong_induction_on with
  | _ n ih =>
    intro a
    by_cases h : n < 10
    · have hr : (natRepr n).data = [digitChar n] := by
        rw [natRepr_data]; simp [natReprGo, h]
      rw [hr]
      simp [List.foldl, digitChar_toNat n h]
      omega
    · have hd : n / 10 < n := Nat.div_lt_self (by omega) (by omega)
      rw [natRepr_unfold n h, List.foldl_append]
      simp only [List.foldl]
      rw [ih (n / 10) hd a, digitChar_toNat (n % 10) (by omega)]
      rw [List.length_append, List.length_singleton, pow_succ]
      have h48 : 48 + n % 10 - 48 = n % 10 := by omega
      rw [h48]
      generalize (10 : Nat) ^ (natRepr (n / 10)).data.length = K
      have hmul : a * (K * 10) = 10 * (a * K) := by ring
      rw [hmul]
      omega

theorem digitsToNat_natRepr (n : Nat) : digitsToNat (natRepr n).data = n := by
  rw [digitsToNat, natRepr_foldl n 0]; simp

theorem natRepr_ne_nil (n : Nat) : (natRepr n).data ≠ [] := by
  by_cases h : n < 10
  · rw [natRepr_data]; simp [natReprGo, h]
  · rw [natRepr_unfold n h]; simp

theorem natRepr_digits (n : Nat) : ∀ c ∈ (natRepr n).data, c.isDigit = true := by
  induction n using Nat.strong_induction_on with
  | _ n ih =>
    intro c hc
    by_cases h : n < 10
    · rw [natRepr_data] at hc; simp [natReprGo, h] at hc
      rw [hc]; exact digitChar_isDigit n h
    · have hd : n / 10 < n := Nat.div_lt_self (by omega) (by omega)
      rw [natRepr_unfold n h] at hc
      rcases List.mem_append.mp hc with h1 | h1
      · exact ih (n / 10) hd c h1
      · simp at h1; rw [h1]; exact digitChar_isDigit (n % 10) (by omega)

theorem takeWhile_append_stop (p : Char → Bool) :
    ∀ l₁ l₂ : List Char, (∀ c ∈ l₁, p c = true) →
    (∀ c cs, l₂ = c :: cs → p c = false) →
    (l₁ ++ l₂).takeWhile p = l₁ ∧ (l₁ ++ l₂).dropWhile p = l₂ := by
  intro l₁
  induction l₁ with
  | nil =>
    intro l₂ h1 h2
    match l₂ with
    | [] => simp
    | c :: cs => simp [List.takeWhile_cons, List.dropWhile_cons, h2 c cs rfl]
  | cons a t ih =>
    intro l₂ h1 h2
    have ha : p a = true := h1 a (by simp)
    have := ih l₂ (fun c hc => h1 c (by simp [hc])) h2
    simp [List.takeWhile_cons, List.dropWhile_cons, ha, this.1, this.2]

theorem isNameChar_comma : isNameChar ',' = false := rfl

theorem isNameChar_of_digit (c : Char) (h : c.isDigit = true) : isNameChar c = true := by
  simp [isNameChar, h]

theorem takeWhile_all (p : Char → Bool) (l : List Char) (h : ∀ c ∈ l, p c = true) :
    l.takeWhile p = l := by
  have := takeWhile_append_stop p l [] h (by intro c cs hh; cases hh)
  simpa using this.1

theorem dropWhile_all (p : Char → Bool) (l : List Char) (h : ∀ c ∈ l, p c = true) :
    l.dropWhile p = [] := by
  have := takeWhile_append_stop p l [] h (by intro c cs hh; cases hh)
  simpa using this.2

theorem mkFitsSourceStr_data (name : String) (over : Option Nat) :
    (mkFitsSourceStr name over).data =
      'f' :: 'i' :: 't' :: 's' :: ':' :: (name.data ++ verData over) := by
  have hf : ("fits:" : String).data = ['f', 'i', 't', 's', ':'] := rfl
  cases over with
  | none => simp [mkFitsSourceStr, verData, data_append, hf]
  | some v => simp [mkFitsSourceStr, verData, data_append, hf]

theorem parseFitsPair_wf (name : String) (over : Option Nat)
    (h1 : name.data ≠ []) (h2 : ∀ c ∈ name.data, isNameChar c = true) :
    parseFitsPair (name.data ++ verData over) = some (name, over) := by
  cases over with
  | none =>
    have ht : (name.data ++ verData none).takeWhile isNameChar = name.data := by
      simp only [verData, List.append_nil]
      exact takeWhile_all _ _ h2
    have hd : (name.data ++ verData none).dropWhile isNameChar = [] := by
      simp only [verData, List.append_nil]
      exact dropWhile_all _ _ h2
    simp [parseFitsPair, ht, hd, h1]
  | some v =>
    have hstop : ∀ c cs, (',' :: (natRepr v).data) = c :: cs → isNameChar c = false := by
      intro c cs h; cases h; exact isNameChar_comma
    have ht := takeWhile_append_stop isNameChar name.data (',' :: (natRepr v).data) h2 hstop
    have hds : ((natRepr v).data).takeWhile Char.isDigit = (natRepr v).data :=
      takeWhile_all _ _ (natRepr_digits v)
    simp only [verData]
    simp [parseFitsPair, ht.1, ht.2, h1, hds, natRepr_ne_nil v, digitsToNat_natRepr v]

theorem get_block_fits_str (m : EmbeddedBlockManager) (fresh : Nat) (s : String)
    (name : String) (over : Option Nat)
    (h0 : s.data = 'f' :: 'i' :: 't' :: 's' :: ':' :: (name.data ++ verData over))
    (h1 : name.data ≠ []) (h2 : ∀ c ∈ name.data, isNameChar c = true) :
    EmbeddedBlockManager.get_block m fresh (.str s) =
      match hduLookup m.hdulist name over with
      | some hdu => .ok (.fits ⟨fresh, hdu⟩)
      | none => .error .addressError := by
  have hd : dropPrefixFits s = some (name.data ++ verData over) := by
    simp [dropPrefixFits, h0]
  simp only [EmbeddedBlockManager.get_block, hd, parseFitsPair_wf name over h1 h2]

theorem get_block_parsed (m : EmbeddedBlockManager) (fresh : Nat) (s : String)
    (rest : List Char) (name : String) (over : Option Nat)
    (h0 : s.data = 'f' :: 'i' :: 't' :: 's' :: ':' :: rest)
    (hp : parseFitsPair rest = some (name, over)) :
    EmbeddedBlockManager.get_block m fresh (.str s) =
      match hduLookup m.hdulist name over with
      | some hdu => .ok (.fits ⟨fresh, hdu⟩)
      | none => .error .addressError := by
  have hd : dropPrefixFits s = some rest := by
    simp [dropPrefixFits, h0]
  simp only [EmbeddedBlockManager.get_block, hd, hp]

theorem get_block_delegates (m : EmbeddedBlockManager) (fresh : Nat) (s : String)
    (hs : dropPrefixFits s = none) :
    EmbeddedBlockManager.get_block m fresh (.str s) =
      (BlockManager.get_block m.base (.str s)).map ABlock.internal := by
  simp only [EmbeddedBlockManager.get_block, hs]

theorem get_block_delegates_badname (m : EmbeddedBlockManager) (fresh : Nat) (s : String)
    (rest : List Char) (h0 : s.data = 'f' :: 'i' :: 't' :: 's' :: ':' :: rest)
    (hr : rest.takeWhile isNameChar = []) :
    EmbeddedBlockManager.get_block m fresh (.str s) =
      (BlockManager.get_block m.base (.str s)).map ABlock.internal := by
  have hd : dropPrefixFits s = some rest := by
    simp [dropPrefixFits, h0]
  have hp : parseFitsPair rest = none := by
    simp [parseFitsPair, hr]
  simp only [EmbeddedBlockManager.get_block, hd, hp]

theorem parseNat_cons_nondigit (c : Char) (cs : List Char) (hc : c.isDigit = false) :
    parseNat (c :: cs) = none := by
  rw [parseNat, if_neg]
  rintro ⟨-, hall⟩
  have := hall c (List.mem_cons_self c cs)
  rw [hc] at this
  exact Bool.noConfusion this

theorem parseFitsPair_ver_junk (name : String) (v : Nat) (c : Char) (cs : List Char)
    (hc : c.isDigit = false)
    (h1 : name.data ≠ []) (h2 : ∀ ch ∈ name.data, isNameChar ch = true) :
    parseFitsPair (name.data ++ ',' :: ((natRepr v).data ++ c :: cs)) =
      some (name, some v) := by
  have hstop : ∀ x xs, (',' :: ((natRepr v).data ++ c :: cs)) = x :: xs →
      isNameChar x = false := by
    intro x xs h; cases h; exact isNameChar_comma
  have ht := takeWhile_append_stop isNameChar name.data
    (',' :: ((natRepr v).data ++ c :: cs)) h2 hstop
  have hdstop : ∀ x xs, (c :: cs : List Char) = x :: xs → x.isDigit = false := by
    intro x xs h; cases h; exact hc
  have hds := takeWhile_append_stop Char.isDigit (natRepr v).data (c :: cs)
    (natRepr_digits v) hdstop
  simp [parseFitsPair, ht.1, ht.2, h1, hds.1, natRepr_ne_nil v, digitsToNat_natRepr v]

theorem setAsdfData_of_find (l : List HDU) (hdu : HDU) (buf : Buffer)
    (h : l.find? (fun x => x.name == ASDF_EXTENSION_NAME) = some hdu) :
    ∃ i, ∃ hi : i < l.length, (l.get ⟨i, hi⟩).name = ASDF_EXTENSION_NAME ∧
      setAsdfData l buf = l.set i { l.get ⟨i, hi⟩ with data := buf } := by
  induction l with
  | nil => simp at h
  | cons h0 t ih =>
    by_cases hb : (h0.name == ASDF_EXTENSION_NAME) = true
    · refine ⟨0, by simp, ?_, ?_⟩
      · simpa using eq_of_beq hb
      · simp [setAsdfData, hb, List.set]
    · have hb' : (h0.name == ASDF_EXTENSION_NAME) = false := by simpa using hb
      rw [List.find?_cons, hb'] at h
      obtain ⟨i, hi, hname, hset⟩ := ih h
      refine ⟨i + 1, by simpa using Nat.succ_lt_succ hi, ?_, ?_⟩
      · simpa using hname
      · simp [setAsdfData, hb, List.set, hset]

theorem setAsdfData_get?_ne (buf : Buffer) :
    ∀ (l : List HDU) (i : Nat) (hi : i < l.length),
    (l.get ⟨i, hi⟩).name ≠ ASDF_EXTENSION_NAME →
    (setAsdfData l buf).get? i = some (l.get ⟨i, hi⟩) := by
  intro l
  induction l with
  | nil => intro i hi; simp at hi
  | cons h0 t ih =>
    intro i hi hn
    by_cases hb : (h0.name == ASDF_EXTENSION_NAME) = true
    · cases i with
      | zero => exact absurd (eq_of_beq hb) (by simpa using hn)
      | succ i =>
        have hi' : i < t.length := by simpa using hi
        simp [setAsdfData, hb]
    · cases i with
      | zero => simp [setAsdfData, hb]
      | succ i =>
        have hi' : i < t.length := by simpa using hi
        simp only [setAsdfData, hb, if_false, List.get?]
        exact ih i hi' (by simpa using hn)

theorem get_block_fits_str_eq (m : EmbeddedBlockManager) (fresh : Nat)
    (name : String) (over : Option Nat)
    (h1 : name.data ≠ []) (h2 : ∀ c ∈ name.data, isNameChar c = true) :
    EmbeddedBlockManager.get_block m fresh (mkFitsSource name over) =
      match hduLookup m.hdulist name over with
      | some hdu => .ok (.fits ⟨fresh, hdu⟩)
      | none => .error .addressError := by
  simp only [mkFitsSource]
  exact get_block_parsed m fresh _ (name.data ++ verData over) name over
    (mkFitsSourceStr_data name over) (parseFitsPair_wf name over h1 h2)

/-! The claim theorems. -/

/-- C1 counterexample: `get_block` allocates a new `_FitsBlock` wrapper on
every call, so `get_block(get_source(b))` is not the same block object `b`:
here the live wrapper has object identity 0, while resolving its canonical
source yields a wrapper with a fresh object identity 1. -/
theorem resolve_identify_not_same_object :
    EmbeddedBlockManager.get_source mgr0 (.fits blk0) = .ok (.str "fits:SCI,1") ∧
    EmbeddedBlockManager.get_block mgr0 1 (.str "fits:SCI,1") = .ok (.fits ⟨1, sciHdu⟩) ∧
    ABlock.fits ⟨1, sciHdu⟩ ≠ ABlock.fits blk0 := by
  refine ⟨rfl, rfl, ?_⟩
  intro h
  exact absurd (by injection h) (by decide : ¬ (⟨1, sciHdu⟩ : FitsBlock) = blk0)

/-- C1 (amended): for every live block wrapping a host section (its HDU
present in the host list and found by identity, its name in the grammar
alphabet, and the name-and-version lookup returning it), resolving its
canonical source yields a block wrapping the very same host HDU — but as a
freshly allocated wrapper object, not the identical wrapper `b`. -/
theorem resolve_identify_wraps_same_section (m : EmbeddedBlockManager)
    (b : FitsBlock) (fresh : Nat)
    (h1 : m.hdulist.find? (fun h => h.oid == b.hdu.oid) = some b.hdu)
    (h2 : b.hdu.name.data ≠ [])
    (h3 : ∀ c ∈ b.hdu.name.data, isNameChar c = true)
    (h4 : hduLookup m.hdulist b.hdu.name (some b.hdu.ver) = some b.hdu) :
    ∃ s : String, EmbeddedBlockManager.get_source m (.fits b) = .ok (.str s) ∧
      EmbeddedBlockManager.get_block m fresh (.str s) = .ok (.fits ⟨fresh, b.hdu⟩) := by
  refine ⟨"fits:" ++ b.hdu.name ++ "," ++ natRepr b.hdu.ver, ?_, ?_⟩
  · simp [EmbeddedBlockManager.get_source, h1]
  · have hf : ("fits:" : String).data = ['f', 'i', 't', 's', ':'] := rfl
    have hc : ("," : String).data = [','] := rfl
    have h0 : ("fits:" ++ b.hdu.name ++ "," ++ natRepr b.hdu.ver).data =
        'f' :: 'i' :: 't' :: 's' :: ':' ::
          (b.hdu.name.data ++ verData (some b.hdu.ver)) := by
      simp [data_append, hf, hc, verData]
    rw [get_block_parsed m fresh _ (b.hdu.name.data ++ verData (some b.hdu.ver))
      b.hdu.name (some b.hdu.ver) h0 (parseFitsPair_wf b.hdu.name (some b.hdu.ver) h2 h3), h4]

/-- C1 witness: the amended law at the concrete SCI host section. -/
theorem resolve_identify_wraps_same_section_witness :
    ∃ s : String, EmbeddedBlockManager.get_source mgr0 (.fits blk0) = .ok (.str s) ∧
      EmbeddedBlockManager.get_block mgr0 1 (.str s) = .ok (.fits ⟨1, sciHdu⟩) :=
  resolve_identify_wraps_same_section mgr0 blk0 1 (by decide) (by decide)
    (by decide) (by decide)

/-- C2: a source string of the exact grammar `fits:NAME[,VERSION]` resolves
to a fresh block wrapping the host section found by name (and version when
given; first match otherwise), whose data is exactly that section's buffer;
a string source without the scheme prefix, and every integer source, is
delegated to the base manager. -/
theorem get_block_scheme_resolution (m : EmbeddedBlockManager) (fresh : Nat)
    (name : String) (over : Option Nat)
    (h1 : name.data ≠ []) (h2 : ∀ c ∈ name.data, isNameChar c = true) :
    (∀ hdu, hduLookup m.hdulist name over = some hdu →
      EmbeddedBlockManager.get_block m fresh (mkFitsSource name over) =
        .ok (.fits ⟨fresh, hdu⟩) ∧
      FitsBlock.data ⟨fresh, hdu⟩ = hdu.data) ∧
    (∀ s : String, dropPrefixFits s = none →
      EmbeddedBlockManager.get_block m fresh (.str s) =
        (BlockManager.get_block m.base (.str s)).map ABlock.internal) ∧
    (∀ n : Nat, EmbeddedBlockManager.get_block m fresh (.int n) =
      (BlockManager.get_block m.base (.int n)).map ABlock.internal) := by
  refine ⟨?_, ?_, fun n => rfl⟩
  · intro hdu hh
    refine ⟨?_, rfl⟩
    rw [get_block_fits_str_eq m fresh name over h1 h2, hh]
  · intro s hs
    exact get_block_delegates m fresh s hs

/-- C2 witness: `fits:SCI,1` resolves to a wrapper over the SCI section. -/
theorem get_block_scheme_resolution_witness :
    EmbeddedBlockManager.get_block mgr0 5 (mkFitsSource "SCI" (some 1)) =
      .ok (.fits ⟨5, sciHdu⟩) ∧
    FitsBlock.data ⟨5, sciHdu⟩ = sciHdu.data :=
  (get_block_scheme_resolution mgr0 5 "SCI" (some 1) (by decide) (by decide)).1
    sciHdu (by decide)

/-- C3: for a block wrapping a host section, `get_source` scans the host
list and returns the scheme string `fits:NAME,VER` of the section whose
identity matches, raises the resource-removed error when that section is no
longer present (mutating nothing: it is a pure query), and delegates every
other block to the base manager. -/
theorem get_source_scheme_and_removed (m : EmbeddedBlockManager) :
    (∀ (fb : FitsBlock) (h : HDU),
      m.hdulist.find? (fun x => x.oid == fb.hdu.oid) = some h →
      EmbeddedBlockManager.get_source m (.fits fb) =
        .ok (.str ("fits:" ++ h.name ++ "," ++ natRepr h.ver))) ∧
    (∀ fb : FitsBlock,
      m.hdulist.find? (fun x => x.oid == fb.hdu.oid) = none →
      EmbeddedBlockManager.get_source m (.fits fb) = .error .resourceRemovedError) ∧
    (∀ blk : Block, EmbeddedBlockManager.get_source m (.internal blk) =
      BlockManager.get_source m.base blk) := by
  refine ⟨?_, ?_, fun blk => rfl⟩
  · intro fb h hh; simp [EmbeddedBlockManager.get_source, hh]
  · intro fb hh; simp [EmbeddedBlockManager.get_source, hh]

/-- C3 witness: the scheme string of the live SCI wrapper, and the
resource-removed error once the host list no longer holds its HDU. -/
theorem get_source_scheme_and_removed_witness :
    EmbeddedBlockManager.get_source mgr0 (.fits blk0) =
      .ok (.str ("fits:" ++ "SCI" ++ "," ++ natRepr 1)) ∧
    EmbeddedBlockManager.get_source ⟨[], ⟨[], []⟩⟩ (.fits blk0) =
      .error .resourceRemovedError :=
  ⟨(get_source_scheme_and_removed mgr0).1 blk0 sciHdu (by decide),
   (get_source_scheme_and_removed ⟨[], ⟨[], []⟩⟩).2.1 blk0 (by decide)⟩

/-- C4 counterexample: the aliasing check is guarded by
`not isinstance(arr, ndarray.NDArrayType)`, so an NDArrayType array whose
base buffer identity equals the SCI section's data buffer is not wrapped:
`find_or_create_block_for_array` delegates it to the base manager, which
here creates an internal block — the returned block is not the wrapper over
the aliased section, refuting the claim's universal statement. -/
theorem find_or_create_ndarraytype_not_wrapped :
    mgr0.hdulist.find?
      (fun h => h.data.id == (⟨true, ⟨100, [1, 2, 3]⟩⟩ : ArrayView).base.id) =
      some sciHdu ∧
    EmbeddedBlockManager.find_or_create_block_for_array mgr0 7
        ⟨true, ⟨100, [1, 2, 3]⟩⟩ =
      (ABlock.internal ⟨7, [1, 2, 3]⟩,
       ⟨[⟨7, [1, 2, 3]⟩], [(100, ⟨7, [1, 2, 3]⟩)]⟩) ∧
    (EmbeddedBlockManager.find_or_create_block_for_array mgr0 7
        ⟨true, ⟨100, [1, 2, 3]⟩⟩).1 ≠ ABlock.fits ⟨7, sciHdu⟩ ∧
    (EmbeddedBlockManager.find_or_create_block_for_array mgr0 7
        ⟨true, ⟨100, [1, 2, 3]⟩⟩).2.internalBlocks.length = 1 := by
  refine ⟨rfl, rfl, ?_, rfl⟩
  decide

/-- C4 (amended): for an array that is not a lazily block-backed
NDArrayType and whose base buffer identity equals some host section's data
buffer, `find_or_create_block_for_array` returns a wrapper over that
section and leaves the base manager untouched (so no internal block is
created); NDArrayType arrays, and arrays aliasing no host section, are
delegated to the base manager. -/
theorem find_or_create_host_aliasing (m : EmbeddedBlockManager) (fresh : Nat)
    (arr : ArrayView) :
    (∀ hdu, arr.isNDArrayType = false →
      m.hdulist.find? (fun h => h.data.id == arr.base.id) = some hdu →
      EmbeddedBlockManager.find_or_create_block_for_array m fresh arr =
        (.fits ⟨fresh, hdu⟩, m.base)) ∧
    (arr.isNDArrayType = false →
      m.hdulist.find? (fun h => h.data.id == arr.base.id) = none →
      EmbeddedBlockManager.find_or_create_block_for_array m fresh arr =
        (ABlock.internal (BlockManager.find_or_create_block_for_array m.base fresh arr).1,
         (BlockManager.find_or_create_block_for_array m.base fresh arr).2)) ∧
    (arr.isNDArrayType = true →
      EmbeddedBlockManager.find_or_create_block_for_array m fresh arr =
        (ABlock.internal (BlockManager.find_or_create_block_for_array m.base fresh arr).1,
         (BlockManager.find_or_create_block_for_array m.base fresh arr).2)) := by
  refine ⟨?_, ?_, ?_⟩
  · intro hdu hnd hh
    simp [EmbeddedBlockManager.find_or_create_block_for_array, hnd, hh]
  · intro hnd hh
    simp [EmbeddedBlockManager.find_or_create_block_for_array, hnd, hh]
  · intro hnd
    simp [EmbeddedBlockManager.find_or_create_block_for_array, hnd]

/-- C4 witness: an array aliasing the SCI section's buffer is bound to a
wrapper over that section, and the base manager (holding zero internal
blocks) is returned unchanged. -/
theorem find_or_create_host_aliasing_witness :
    EmbeddedBlockManager.find_or_create_block_for_array mgr0 7
        ⟨false, ⟨100, [1, 2, 3]⟩⟩ =
      (.fits ⟨7, sciHdu⟩, mgr0.base) :=
  (find_or_create_host_aliasing mgr0 7 ⟨false, ⟨100, [1, 2, 3]⟩⟩).1
    sciHdu rfl (by decide)

/-- C5: `write_to_stream` of an embedded document fails unconditionally
with the unsupported-operation signal, before producing any state: no new
document or sink bytes are ever returned. -/
theorem write_to_stream_unsupported (self : AsdfInFits) (data : List Nat) :
    AsdfInFits.write_to_stream self data = .error .unsupportedOperationError := rfl

/-- C6: both `write_to` and `update` go through `_update_asdf_extension`,
which serializes the whole base-format byte-stream of the tree and the
internal-only blocks and stores it as the data of exactly one `ASDF`
section: appended when absent, its data replaced (one position of the host
list changed, all others untouched) when present. -/
theorem update_packages_single_payload (self : AsdfInFits) (freshOid freshBuf : Nat) :
    (AsdfInFits.write_to self freshOid freshBuf =
      AsdfInFits.updateAsdfExtension self freshOid freshBuf) ∧
    (AsdfInFits.update self freshOid freshBuf =
      AsdfInFits.updateAsdfExtension self freshOid freshBuf) ∧
    (self.hdulist.find? (fun h => h.name == ASDF_EXTENSION_NAME) = none →
      (AsdfInFits.updateAsdfExtension self freshOid freshBuf).hdulist =
        self.hdulist ++ [⟨freshOid, ASDF_EXTENSION_NAME, 1,
          ⟨freshBuf, serializePayload self.tree self.blocks.internalBlocks⟩⟩]) ∧
    (∀ hdu, self.hdulist.find? (fun h => h.name == ASDF_EXTENSION_NAME) = some hdu →
      ∃ i, ∃ hi : i < self.hdulist.length,
        (self.hdulist.get ⟨i, hi⟩).name = ASDF_EXTENSION_NAME ∧
        (AsdfInFits.updateAsdfExtension self freshOid freshBuf).hdulist =
          self.hdulist.set i { self.hdulist.get ⟨i, hi⟩ with
            data := ⟨freshBuf, serializePayload self.tree self.blocks.internalBlocks⟩ }) := by
  refine ⟨rfl, rfl, ?_, ?_⟩
  · intro hh
    simp [AsdfInFits.updateAsdfExtension, updateAsdfExtensionStaged,
      updateAsdfExtensionHdulist, hh]
  · intro hdu hh
    obtain ⟨i, hi, hn, hs⟩ := setAsdfData_of_find self.hdulist hdu
      ⟨freshBuf, serializePayload self.tree self.blocks.internalBlocks⟩ hh
    exact ⟨i, hi, hn, by
      simp [AsdfInFits.updateAsdfExtension, updateAsdfExtensionStaged,
        updateAsdfExtensionHdulist, hh, hs]⟩

/-- C6 witness: updating the concrete document replaces the data of its
present `ASDF` section in place. -/
theorem update_packages_single_payload_witness :
    ∃ i, ∃ hi : i < doc0.hdulist.length,
      (doc0.hdulist.get ⟨i, hi⟩).name = ASDF_EXTENSION_NAME ∧
      (AsdfInFits.updateAsdfExtension doc0 30 31).hdulist =
        doc0.hdulist.set i { doc0.hdulist.get ⟨i, hi⟩ with
          data := ⟨31, serializePayload doc0.tree doc0.blocks.internalBlocks⟩ } :=
  (update_packages_single_payload doc0 30 31).2.2.2 asdfHdu (by decide)

/-- C7 counterexample: the grammar match is a prefix match, so the
malformed source `fits:SCI,1!junk` — trailing characters after a valid
name and version — does not raise an AddressError: it resolves to the SCI
section. -/
theorem trailing_garbage_resolves :
    EmbeddedBlockManager.get_block mgr0 0 (.str "fits:SCI,1!junk") =
      .ok (.fits ⟨0, sciHdu⟩) ∧
    EmbeddedBlockManager.get_block mgr0 0 (.str "fits:SCI,1!junk") ≠
      .error .addressError := by
  refine ⟨rfl, ?_⟩
  intro h
  rw [show EmbeddedBlockManager.get_block mgr0 0 (.str "fits:SCI,1!junk") =
    .ok (.fits ⟨0, sciHdu⟩) from rfl] at h
  exact Except.noConfusion h

/-- C7 (amended): a string source without the `fits:` prefix falls through
to the base resolution, which fails with AddressError whenever the string
is not a valid integer index; a `fits:` source whose name part is empty or
outside the `[A-Z0-9]` alphabet likewise falls through (and, starting with
the letter f, can never be a valid integer index, so it fails); but
trailing characters after a valid `NAME,VERSION` prefix are ignored and the
valid prefix is resolved. -/
theorem address_error_discipline_amended (m : EmbeddedBlockManager) (fresh : Nat) :
    (∀ s : String, dropPrefixFits s = none →
      EmbeddedBlockManager.get_block m fresh (.str s) =
        (BlockManager.get_block m.base (.str s)).map ABlock.internal) ∧
    (∀ s : String, parseNat s.data = none →
      BlockManager.get_block m.base (.str s) = .error .addressError) ∧
    (∀ (s : String) (rest : List Char),
      s.data = 'f' :: 'i' :: 't' :: 's' :: ':' :: rest →
      rest.takeWhile isNameChar = [] →
      EmbeddedBlockManager.get_block m fresh (.str s) = .error .addressError) ∧
    (∀ (s : String) (name : String) (v : Nat) (c : Char) (cs : List Char),
      c.isDigit = false →
      s.data = 'f' :: 'i' :: 't' :: 's' :: ':' ::
        (name.data ++ ',' :: ((natRepr v).data ++ c :: cs)) →
      name.data ≠ [] → (∀ ch ∈ name.data, isNameChar ch = true) →
      EmbeddedBlockManager.get_block m fresh (.str s) =
        match hduLookup m.hdulist name (some v) with
        | some hdu => .ok (.fits ⟨fresh, hdu⟩)
        | none => .error .addressError) := by
  refine ⟨?_, ?_, ?_, ?_⟩
  · intro s hs; exact get_block_delegates m fresh s hs
  · intro s hs; simp [BlockManager.get_block, hs]
  · intro s rest h0 hr
    rw [get_block_delegates_badname m fresh s rest h0 hr]
    have hn : parseNat s.data = none := by
      rw [h0]; exact parseNat_cons_nondigit 'f' _ rfl
    simp [BlockManager.get_block, hn, Except.map]
  · intro s name v c cs hc h0 h1 h2
    exact get_block_parsed m fresh s _ name (some v) h0
      (parseFitsPair_ver_junk name v c cs hc h1 h2)

/-- C7 witness: an unrecognized scheme falls through to the base and fails;
a bad name part after `fits:` fails; a valid prefix with trailing junk
resolves. -/
theorem address_error_discipline_amended_witness :
    EmbeddedBlockManager.get_block mgr0 3 (.str "hdf5:FOO") =
      (BlockManager.get_block mgr0.base (.str "hdf5:FOO")).map ABlock.internal ∧
    BlockManager.get_block mgr0.base (.str "hdf5:FOO") = .error .addressError ∧
    EmbeddedBlockManager.get_block mgr0 3 (.str "fits:?bad") = .error .addressError :=
  ⟨(address_error_discipline_amended mgr0 3).1 "hdf5:FOO" (by decide),
   (address_error_discipline_amended mgr0 3).2.1 "hdf5:FOO" (by decide),
   (address_error_discipline_amended mgr0 3).2.2.1 "fits:?bad"
     ['?', 'b', 'a', 'd'] (by decide) (by decide)⟩

/-- C8: resolving a well-formed scheme source naming a section absent from
the host container fails with AddressError (astropy's KeyError in the
spec's taxonomy), and resolving an integer source at or beyond the internal
block count fails with AddressError. -/
theorem get_block_missing_section_or_oob (m : EmbeddedBlockManager) (fresh : Nat) :
    (∀ (name : String) (over : Option Nat), name.data ≠ [] →
      (∀ c ∈ name.data, isNameChar c = true) →
      hduLookup m.hdulist name over = none →
      EmbeddedBlockManager.get_block m fresh (mkFitsSource name over) =
        .error .addressError) ∧
    (∀ n : Nat, m.base.internalBlocks.length ≤ n →
      EmbeddedBlockManager.get_block m fresh (.int n) = .error .addressError) := by
  constructor
  · intro name over h1 h2 hh
    rw [get_block_fits_str_eq m fresh name over h1 h2, hh]
  · intro n hn
    show (BlockManager.get_block m.base (.int n)).map ABlock.internal = _
    simp only [BlockManager.get_block]
    rw [dif_neg (by omega)]
    rfl

/-- C8 witness: `fits:MISSING,1` against a host lacking that section, and
the integer source 5 against a registry of two internal blocks, both fail
with AddressError. -/
theorem get_block_missing_section_or_oob_witness :
    EmbeddedBlockManager.get_block mgr2 0 (mkFitsSource "MISSING" (some 1)) =
      .error .addressError ∧
    EmbeddedBlockManager.get_block mgr2 0 (.int 5) = .error .addressError :=
  ⟨(get_block_missing_section_or_oob mgr2 0).1 "MISSING" (some 1)
      (by decide) (by decide) (by decide),
   (get_block_missing_section_or_oob mgr2 0).2 5 (by decide)⟩

/-- C9: `update` stages the complete payload first — an error during the
base serialization returns with the host list exactly as it was — and in
the success case every host section at a position not named `ASDF` keeps
its name, version and bytes unchanged. -/
theorem update_staged_atomicity :
    (∀ (l : List HDU) (e : AsdfError) (fo fb : Nat),
      updateAsdfExtensionStaged l (.error e) fo fb = (.error e, l)) ∧
    (∀ (self : AsdfInFits) (fo fb : Nat),
      (AsdfInFits.update self fo fb).hdulist =
        (updateAsdfExtensionStaged self.hdulist
          (.ok (serializePayload self.tree self.blocks.internalBlocks)) fo fb).2) ∧
    (∀ (l : List HDU) (payload : List Nat) (fo fb : Nat) (i : Nat)
      (hi : i < l.length),
      (l.get ⟨i, hi⟩).name ≠ ASDF_EXTENSION_NAME →
      (updateAsdfExtensionStaged l (.ok payload) fo fb).2.get? i =
        some (l.get ⟨i, hi⟩)) := by
  refine ⟨fun _ _ _ _ => rfl, fun _ _ _ => rfl, ?_⟩
  intro l payload fo fb i hi hn
  simp only [updateAsdfExtensionStaged, updateAsdfExtensionHdulist]
  cases hfind : l.find? (fun h => h.name == ASDF_EXTENSION_NAME) with
  | none =>
    rw [List.get?_append hi]
    exact List.get?_eq_get hi
  | some hdu =>
    exact setAsdfData_get?_ne _ l i hi hn

/-- C9 witness: a serialization error leaves the host list untouched, and a
successful update leaves the non-ASDF section at position 0 unchanged. -/
theorem update_staged_atomicity_witness :
    updateAsdfExtensionStaged [sciHdu] (.error .addressError) 0 0 =
      (.error .addressError, [sciHdu]) ∧
    (updateAsdfExtensionStaged [sciHdu, asdfHdu] (.ok [9]) 40 41).2.get? 0 =
      some sciHdu :=
  ⟨update_staged_atomicity.1 [sciHdu] .addressError 0 0,
   update_staged_atomicity.2.2 [sciHdu, asdfHdu] [9] 40 41 0 (by decide) (by decide)⟩

/-- C10: reading a host container with no `ASDF` section (the lookup
miss the code catches as KeyError, IndexError or AttributeError) does not
fail: it returns a fresh embedded document bound to that host list with an
empty tree; when the section is present, its payload bytes are decoded as
the base-format byte-stream. -/
theorem read_fallback_empty_tree (hdulist : List HDU) :
    (hduLookup hdulist ASDF_EXTENSION_NAME none = none →
      AsdfInFits.read hdulist = AsdfInFits.init hdulist ∧
      (AsdfInFits.read hdulist).tree = [] ∧
      (AsdfInFits.read hdulist).hdulist = hdulist) ∧
    (∀ hdu, hduLookup hdulist ASDF_EXTENSION_NAME none = some hdu →
      AsdfInFits.read hdulist = AsdfInFits.readImpl hdulist hdu.data.bytes) := by
  constructor
  · intro hh
    have hread : AsdfInFits.read hdulist = AsdfInFits.init hdulist := by
      simp [AsdfInFits.read, hh]
    exact ⟨hread, by rw [hread]; rfl, by rw [hread]; rfl⟩
  · intro hdu hh
    simp [AsdfInFits.read, hh]

/-- C10 witness: a host without an ASDF section reads as an empty document
bound to it; a host with one reads by decoding that section's payload. -/
theorem read_fallback_empty_tree_witness :
    (AsdfInFits.read [sciHdu] = AsdfInFits.init [sciHdu] ∧
      (AsdfInFits.read [sciHdu]).tree = [] ∧
      (AsdfInFits.read [sciHdu]).hdulist = [sciHdu]) ∧
    AsdfInFits.read [sciHdu, asdfHdu] =
      AsdfInFits.readImpl [sciHdu, asdfHdu] asdfHdu.data.bytes :=
  ⟨(read_fallback_empty_tree [sciHdu]).1 (by decide),
   (read_fallback_empty_tree [sciHdu, asdfHdu]).2 asdfHdu (by decide)⟩

end Pyasdf
